import Mathlib

/-!
Verification development for the scaling-analysis pipeline
(`src/scaling_analysis`): a shallow embedding of the data-cleaning,
merge, transform and regression functions, together with theorems
settling the specification claims.

Conventions of the embedding:
* A pandas DataFrame row of the panel is `Row α`: the identifier columns
  `Entity` (never null inside a group), `Code` (nullable string) and
  `Year` (integer), followed by the measurement cells, positionally
  indexed, with `none` standing for a null/NaN cell.
* Rational numbers stand for the (exact) numeric values; the
  transcendental `log1p` of `numpy` is carried as an explicit function
  parameter `f` and instantiated with `Real.log (1 + x)` in concrete
  statements.
* IEEE-754 special values produced by float arithmetic (`inf`, `-inf`,
  `nan`) are modelled by the type `PFloat` below, with `nan` doubling as
  the pandas null marker for float columns, exactly as in pandas.
-/

namespace ScalingAnalysis

/-- A row of the merged panel: identifier columns plus positional
measurement cells (`none` = null/NaN). -/
structure Row (α : Type) where
  entity : String
  code : Option String
  year : Int
  cells : List (Option α)
deriving DecidableEq

/-- A panel DataFrame: a list of rows (order is the pandas row order). -/
abbrev Frame (α : Type) := List (Row α)

/-- `features.remove_entities_without_iso`: keep rows whose `Code` is
non-null and not the empty string. -/
def remove_entities_without_iso (df : Frame α) : Frame α :=
  df.filter (fun r => r.code.isSome && !(r.code == some ""))

/-- `features.select_year_range`: keep rows inside the optional
`[year_min, year_max]` bounds, each bound filtered separately. -/
def select_year_range (df : Frame α) (yearMin yearMax : Option Int) : Frame α :=
  let df1 := match yearMin with
    | some m => df.filter (fun r => decide (m ≤ r.year))
    | none => df
  match yearMax with
  | some m => df1.filter (fun r => decide (r.year ≤ m))
  | none => df1

/-- Null flags of one row, in pandas column order: `Entity` (never
null), `Code`, `Year` (never null), then the measurement cells. -/
def rowNullFlags (r : Row α) : List Bool :=
  false :: r.code.isNone :: false :: r.cells.map Option.isNone

/-- Number of measurement cells of the widest row (for a rectangular
frame: the common number of measurement columns). -/
def frameWidth (df : Frame α) : Nat :=
  df.foldr (fun r m => max r.cells.length m) 0

/-- Total number of pandas columns of the frame: the three identifier
columns plus the measurement columns. -/
def numCols (df : Frame α) : Nat := 3 + frameWidth df

/-- The rows of the `groupby('Entity')` group of entity `e`. -/
def entityGroup (df : Frame α) (e : String) : Frame α :=
  df.filter (fun r => r.entity == e)

/-- Number of null cells of column `j` inside group `g`. -/
def colNullCount (g : Frame α) (j : Nat) : Nat :=
  (g.filter (fun r => (rowNullFlags r).getD j true)).length

/-- `group.isnull().mean()` for column `j`: fraction of null cells. -/
def colNullFrac (g : Frame α) (j : Nat) : ℚ :=
  (colNullCount g j : ℚ) / (g.length : ℚ)

/-- `g.isnull().mean().mean()` of an entity group: the mean over the
frame's columns of the per-column null fraction. -/
def entityMeanNull (df : Frame α) (e : String) : ℚ :=
  (((List.range (numCols df)).map (fun j => colNullFrac (entityGroup df e) j)).sum)
    / (numCols df : ℚ)

/-- `features.remove_high_null_entities`: keep the rows of entities
whose mean null fraction is strictly below `threshold`. -/
def remove_high_null_entities (df : Frame α) (threshold : ℚ) : Frame α :=
  df.filter (fun r => decide (entityMeanNull df r.entity < threshold))

/-- `group.isnull().mean() * 100` for column `j` of entity `e`. -/
def entityColPct (df : Frame α) (e : String) (j : Nat) : ℚ :=
  colNullFrac (entityGroup df e) j * 100

/-- `features.column_pct`: keep the rows of entities all of whose
columns have a null percentage strictly below `threshold`. -/
def column_pct (df : Frame α) (threshold : ℚ) : Frame α :=
  df.filter (fun r =>
    decide (∀ j ∈ List.range (numCols df), entityColPct df r.entity j < threshold))

theorem select_year_range_sublist (df : Frame α) (yMin yMax : Option Int) :
    (select_year_range df yMin yMax).Sublist df := by
  unfold select_year_range
  cases yMin with
  | none =>
    cases yMax with
    | none => exact List.Sublist.refl df
    | some m => exact List.filter_sublist df
  | some m =>
    cases yMax with
    | none => exact List.filter_sublist df
    | some m2 => exact (List.filter_sublist _).trans (List.filter_sublist df)

/-- Claim C10: every filter stage (identifier filter, year-range filter,
coarse null-rate entity filter, column-conditional entity filter)
returns a row-subset of its input: each output row appears in the input
with all of its values unchanged, and surviving rows keep their
original relative order (`List.Sublist`). -/
theorem filter_stages_are_row_sublists (df : Frame α) (yMin yMax : Option Int)
    (theta t : ℚ) :
    (remove_entities_without_iso df).Sublist df ∧
    (select_year_range df yMin yMax).Sublist df ∧
    (remove_high_null_entities df theta).Sublist df ∧
    (column_pct df t).Sublist df :=
  ⟨List.filter_sublist df, select_year_range_sublist df yMin yMax,
   List.filter_sublist df, List.filter_sublist df⟩

theorem sum_lt_length_mul (l : List ℚ) (b : ℚ) (hne : l ≠ [])
    (h : ∀ x ∈ l, x < b) : l.sum < l.length * b := by
  induction l with
  | nil => simp at hne
  | cons a t ih =>
    cases t with
    | nil => simpa using h a (by simp)
    | cons c u =>
      have ht := ih (by simp) (fun x hx => h x (List.mem_cons_of_mem _ hx))
      have ha := h a (by simp)
      simp only [List.sum_cons, List.length_cons] at ht ⊢
      push_cast
      push_cast at ht
      nlinarith

theorem colNullFrac_lt_of_pct_lt {df : Frame α} {e : String} {j : Nat}
    {t theta : ℚ} (hts : t ≤ 100 * theta)
    (h : entityColPct df e j < t) : colNullFrac (entityGroup df e) j < theta := by
  have h100 : colNullFrac (entityGroup df e) j * 100 < 100 * theta :=
    lt_of_lt_of_le h hts
  nlinarith [h100]

/-- Claim C6: the column-conditional (fine) entity filter retains an
entity only if every column's null percentage within that entity's
group is strictly below the threshold, and — whenever the fine
(per-cent scale) threshold `t` and the coarse (fraction scale)
threshold `theta` are compatible, `t ≤ 100 * theta` — every row the fine
filter retains is also retained by the coarse mean-null-rate filter on
the same data, so the fine retained-entity set is a subset of the
coarse one. -/
theorem column_pct_subset_of_coarse (df : Frame α) (t theta : ℚ)
    (hts : t ≤ 100 * theta) :
    (∀ r ∈ column_pct df t, ∀ j ∈ List.range (numCols df),
        entityColPct df r.entity j < t) ∧
    (∀ r ∈ column_pct df t, r ∈ remove_high_null_entities df theta) := by
  constructor
  · intro r hr j hj
    rw [column_pct, List.mem_filter] at hr
    have := hr.2
    simp only [decide_eq_true_eq] at this
    exact this j hj
  · intro r hr
    rw [column_pct, List.mem_filter] at hr
    obtain ⟨hmem, hpred⟩ := hr
    simp only [decide_eq_true_eq] at hpred
    rw [remove_high_null_entities, List.mem_filter]
    refine ⟨hmem, ?_⟩
    simp only [decide_eq_true_eq]
    -- each column's null fraction is < theta, hence so is the mean
    have hcols : ∀ j ∈ List.range (numCols df),
        colNullFrac (entityGroup df r.entity) j < theta := by
      intro j hj
      exact colNullFrac_lt_of_pct_lt hts (hpred j hj)
    have hn : (0 : ℚ) < (numCols df : ℚ) := by
      have : 0 < numCols df := by simp [numCols]
      exact_mod_cast this
    rw [entityMeanNull, div_lt_iff₀ hn]
    have hlen : ((List.range (numCols df)).map
        (fun j => colNullFrac (entityGroup df r.entity) j)).length = numCols df := by
      simp
    have hne : ((List.range (numCols df)).map
        (fun j => colNullFrac (entityGroup df r.entity) j)) ≠ [] := by
      simp [numCols, List.range_eq_nil]
    calc ((List.range (numCols df)).map
            (fun j => colNullFrac (entityGroup df r.entity) j)).sum
        < ((List.range (numCols df)).map
            (fun j => colNullFrac (entityGroup df r.entity) j)).length * theta := by
          apply sum_lt_length_mul _ theta hne
          intro x hx
          obtain ⟨j, hj, rfl⟩ := List.mem_map.mp hx
          exact hcols j hj
      _ = theta * (numCols df : ℚ) := by rw [hlen]; ring

/-- Witness for C6 at a concrete panel: one fully populated row. -/
theorem column_pct_subset_of_coarse_witness :
    (⟨"A", some "AAA", 2000, [some (1 : ℚ)]⟩ : Row ℚ) ∈
      remove_high_null_entities [⟨"A", some "AAA", 2000, [some 1]⟩] (8 / 10) := by
  apply (column_pct_subset_of_coarse [⟨"A", some "AAA", 2000, [some 1]⟩] 20 (8 / 10)
      (by norm_num)).2
  simp only [column_pct, List.mem_filter, List.mem_singleton, decide_eq_true_eq]
  refine ⟨by simp, ?_⟩
  intro j hj
  simp only [numCols, frameWidth] at hj
  norm_num [List.mem_range] at hj
  interval_cases j <;>
    norm_num [entityColPct, colNullFrac, colNullCount, entityGroup, rowNullFlags]

/-! ## Tabular merge engine (`data.merge_dict_datasets`) -/

/-- The identifier triple the merge joins on: `(Entity, Code, Year)`. -/
structure Key where
  entity : String
  code : Option String
  year : Int
deriving DecidableEq

/-- A source table: its number of measurement columns and its rows,
each an identifier triple with positional measurement cells. -/
structure Table (α : Type) where
  width : Nat
  rows : List (Key × List (Option α))
deriving DecidableEq

/-- One `pd.merge(A, B, on=['Entity','Code','Year'], how='outer')` step:
matched keys pair their cells, unmatched rows of either side are padded
with nulls on the other side's columns. -/
def mergeTwo (A B : Table α) : Table α :=
  { width := A.width + B.width
    rows :=
      (A.rows.flatMap (fun ra =>
        let hits := B.rows.filter (fun rb => rb.1 == ra.1)
        if hits.isEmpty then [(ra.1, ra.2 ++ List.replicate B.width (none : Option α))]
        else hits.map (fun rb => (ra.1, ra.2 ++ rb.2))))
      ++ ((B.rows.filter (fun rb => A.rows.all (fun ra => !(ra.1 == rb.1)))).map
          (fun rb => (rb.1, List.replicate A.width (none : Option α) ++ rb.2))) }

/-- `data.merge_dict_datasets`: left-fold of pairwise outer merges over
the mapping's tables; an empty mapping leaves the `merged` accumulator
as Python `None`, returned as such. -/
def merge_dict_datasets (tables : List (Table α)) : Option (Table α) :=
  match tables with
  | [] => none
  | t :: ts => some (ts.foldl mergeTwo t)

/-- The set (as a list) of identifier triples of a table. -/
def tableKeys (T : Table α) : List Key := T.rows.map Prod.fst

/-- Every row has exactly the declared number of measurement cells
(true of any pandas DataFrame). -/
def Rectangular (T : Table α) : Prop := ∀ p ∈ T.rows, (Prod.snd p).length = T.width

/-- First cell position of source table `i` inside the merged rows. -/
def blockStart (tables : List (Table α)) (i : Nat) : Nat :=
  ((tables.take i).map Table.width).sum

theorem getD_replicate_none (w j : Nat) :
    (List.replicate w (none : Option α)).getD j none = none := by
  rcases lt_or_ge j w with h | h
  · rw [List.getD_eq_getElem?_getD, List.getElem?_replicate, if_pos h]
    rfl
  · rw [List.getD_eq_getElem?_getD, List.getElem?_replicate, if_neg (not_lt.mpr h)]
    rfl

theorem mem_tableKeys_mergeTwo (A B : Table α) (k : Key) :
    k ∈ tableKeys (mergeTwo A B) ↔ k ∈ tableKeys A ∨ k ∈ tableKeys B := by
  constructor
  · intro hk
    obtain ⟨p, hp, rfl⟩ := List.mem_map.mp hk
    rcases List.mem_append.mp hp with hl | hr
    · obtain ⟨ra, hra, hpa⟩ := List.mem_flatMap.mp hl
      left
      by_cases hemp : (B.rows.filter (fun rb => rb.1 == ra.1)).isEmpty
      · rw [if_pos hemp] at hpa
        simp only [List.mem_singleton] at hpa
        subst hpa
        exact List.mem_map.mpr ⟨ra, hra, rfl⟩
      · rw [if_neg hemp] at hpa
        obtain ⟨rb, _, hpb⟩ := List.mem_map.mp hpa
        subst hpb
        exact List.mem_map.mpr ⟨ra, hra, rfl⟩
    · obtain ⟨rb, hrb, hpb⟩ := List.mem_map.mp hr
      subst hpb
      exact Or.inr (List.mem_map.mpr ⟨rb, List.mem_of_mem_filter hrb, rfl⟩)
  · intro hk
    rcases hk with hA | hB
    · obtain ⟨ra, hra, rfl⟩ := List.mem_map.mp (by exact hA)
      apply List.mem_map.mpr
      by_cases hemp : (B.rows.filter (fun rb => rb.1 == ra.1)).isEmpty
      · refine ⟨(ra.1, ra.2 ++ List.replicate B.width none), ?_, rfl⟩
        apply List.mem_append_left
        apply List.mem_flatMap.mpr
        exact ⟨ra, hra, by rw [if_pos hemp]; simp⟩
      · obtain ⟨rb, hrb⟩ : ∃ rb, rb ∈ B.rows.filter (fun x => x.1 == ra.1) := by
          rcases h : B.rows.filter (fun x => x.1 == ra.1) with _ | ⟨b, t⟩
          · exact absurd (by simp [h]) hemp
          · exact ⟨b, by simp [h]⟩
        refine ⟨(ra.1, ra.2 ++ rb.2), ?_, rfl⟩
        apply List.mem_append_left
        apply List.mem_flatMap.mpr
        refine ⟨ra, hra, by rw [if_neg hemp]; exact List.mem_map.mpr ⟨rb, hrb, rfl⟩⟩
    · obtain ⟨rb, hrb, rfl⟩ := List.mem_map.mp (by exact hB)
      by_cases hin : rb.1 ∈ tableKeys A
      · obtain ⟨ra, hra, hk⟩ := List.mem_map.mp hin
        apply List.mem_map.mpr
        have hne : ¬ (B.rows.filter (fun x => x.1 == ra.1)).isEmpty := by
          intro hemp
          have : rb ∈ B.rows.filter (fun x => x.1 == ra.1) :=
            List.mem_filter.mpr ⟨hrb, by simp [hk]⟩
          rw [List.isEmpty_iff] at hemp
          simp [hemp] at this
        refine ⟨(ra.1, ra.2 ++ rb.2), ?_, hk⟩
        apply List.mem_append_left
        apply List.mem_flatMap.mpr
        refine ⟨ra, hra, by
          rw [if_neg hne]
          exact List.mem_map.mpr ⟨rb, List.mem_filter.mpr ⟨hrb, by simp [hk]⟩, rfl⟩⟩
      · apply List.mem_map.mpr
        refine ⟨(rb.1, List.replicate A.width none ++ rb.2), ?_, rfl⟩
        apply List.mem_append_right
        apply List.mem_map.mpr
        refine ⟨rb, List.mem_filter.mpr ⟨hrb, ?_⟩, rfl⟩
        simp only [List.all_eq_true]
        intro ra hra
        simp only [Bool.not_eq_true', beq_eq_false_iff_ne, ne_eq]
        intro hkeq
        exact hin (List.mem_map.mpr ⟨ra, hra, hkeq⟩)

theorem rectangular_mergeTwo {A B : Table α} (hA : Rectangular A)
    (hB : Rectangular B) : Rectangular (mergeTwo A B) := by
  intro p hp
  rcases List.mem_append.mp hp with hl | hr
  · obtain ⟨ra, hra, hpa⟩ := List.mem_flatMap.mp hl
    by_cases hemp : (B.rows.filter (fun rb => rb.1 == ra.1)).isEmpty
    · rw [if_pos hemp] at hpa
      simp only [List.mem_singleton] at hpa
      subst hpa
      simp [mergeTwo, hA ra hra]
    · rw [if_neg hemp] at hpa
      obtain ⟨rb, hrb, hpb⟩ := List.mem_map.mp hpa
      subst hpb
      simp [mergeTwo, hA ra hra, hB rb (List.mem_of_mem_filter hrb)]
  · obtain ⟨rb, hrb, hpb⟩ := List.mem_map.mp hr
    subst hpb
    simp [mergeTwo, hB rb (List.mem_of_mem_filter hrb)]

/-- Structure of a merged row: on the left block it either copies a row
of `A` with the same key, or (key absent from `A`) is all-null; on the
right block likewise with `B`. -/
theorem mergeTwo_row_structure {A B : Table α} (hA : Rectangular A)
    (p : Key × List (Option α)) (hp : p ∈ (mergeTwo A B).rows) :
    ((∃ ra ∈ A.rows, p.1 = ra.1 ∧
        ∀ j, j < A.width → p.2.getD j none = ra.2.getD j none) ∨
      (p.1 ∉ tableKeys A ∧ ∀ j, j < A.width → p.2.getD j none = none)) ∧
    ((∃ rb ∈ B.rows, p.1 = rb.1 ∧
        ∀ j, p.2.getD (A.width + j) none = rb.2.getD j none) ∨
      (p.1 ∉ tableKeys B ∧ ∀ j, A.width ≤ j → p.2.getD j none = none)) := by
  rcases List.mem_append.mp hp with hl | hr
  · obtain ⟨ra, hra, hpa⟩ := List.mem_flatMap.mp hl
    by_cases hemp : (B.rows.filter (fun rb => rb.1 == ra.1)).isEmpty
    · rw [if_pos hemp] at hpa
      simp only [List.mem_singleton] at hpa
      subst hpa
      constructor
      · left
        refine ⟨ra, hra, rfl, fun j hj => ?_⟩
        exact List.getD_append _ _ _ _ (by rw [hA ra hra]; exact hj)
      · right
        constructor
        · intro hkB
          obtain ⟨rb, hrb, hk⟩ := List.mem_map.mp hkB
          rw [List.isEmpty_iff] at hemp
          have : rb ∈ B.rows.filter (fun x => x.1 == ra.1) :=
            List.mem_filter.mpr ⟨hrb, by simp [hk]⟩
          simp [hemp] at this
        · intro j hj
          show (ra.2 ++ List.replicate B.width none).getD j none = none
          rw [List.getD_append_right _ _ _ _ (by rw [hA ra hra]; exact hj)]
          exact getD_replicate_none _ _
    · rw [if_neg hemp] at hpa
      obtain ⟨rb, hrb, hpb⟩ := List.mem_map.mp hpa
      subst hpb
      have hbk : rb.1 = ra.1 := by
        have := (List.mem_filter.mp hrb).2
        simpa using this
      constructor
      · left
        refine ⟨ra, hra, rfl, fun j hj => ?_⟩
        exact List.getD_append _ _ _ _ (by rw [hA ra hra]; exact hj)
      · left
        refine ⟨rb, List.mem_of_mem_filter hrb, hbk.symm, fun j => ?_⟩
        show (ra.2 ++ rb.2).getD (A.width + j) none = rb.2.getD j none
        rw [List.getD_append_right _ _ _ _ (by rw [hA ra hra]; omega)]
        congr 1
        rw [hA ra hra]
        omega
  · obtain ⟨rb, hrb, hpb⟩ := List.mem_map.mp hr
    subst hpb
    have hnotA : rb.1 ∉ tableKeys A := by
      intro hkA
      obtain ⟨ra, hra, hk⟩ := List.mem_map.mp hkA
      have := (List.mem_filter.mp hrb).2
      simp only [List.all_eq_true] at this
      have h2 := this ra hra
      simp only [Bool.not_eq_true', beq_eq_false_iff_ne, ne_eq] at h2
      exact h2 hk
    constructor
    · right
      refine ⟨hnotA, fun j hj => ?_⟩
      show (List.replicate A.width none ++ rb.2).getD j none = none
      rw [List.getD_append _ _ _ _ (by simpa using hj)]
      exact getD_replicate_none _ _
    · left
      refine ⟨rb, List.mem_of_mem_filter hrb, rfl, fun j => ?_⟩
      show (List.replicate A.width none ++ rb.2).getD (A.width + j) none = rb.2.getD j none
      rw [List.getD_append_right _ _ _ _ (by simp)]
      congr 1
      simp

/-- Invariant of the iterated merge: widths add up, the result is
rectangular, its key set is the union of the inputs' key sets, and the
cell block of any source table lacking a row's key is all-null. -/
def MergedInv (tables : List (Table α)) (M : Table α) : Prop :=
  M.width = (tables.map Table.width).sum ∧ Rectangular M ∧
  (∀ k, k ∈ tableKeys M ↔ ∃ T ∈ tables, k ∈ tableKeys T) ∧
  (∀ p ∈ M.rows, ∀ i (hi : i < tables.length),
    p.1 ∉ tableKeys (tables.get ⟨i, hi⟩) →
    ∀ j, blockStart tables i ≤ j → j < blockStart tables i + (tables.get ⟨i, hi⟩).width →
      p.2.getD j none = none)

theorem blockStart_append_lt {Ts : List (Table α)} {B : Table α} {i : Nat}
    (hi : i < Ts.length) : blockStart (Ts ++ [B]) i = blockStart Ts i := by
  unfold blockStart
  rw [List.take_append_of_le_length (le_of_lt hi)]

theorem blockStart_add_width_le (Ts : List (Table α)) (i : Nat)
    (hi : i < Ts.length) :
    blockStart Ts i + (Ts.get ⟨i, hi⟩).width ≤ (Ts.map Table.width).sum := by
  induction Ts generalizing i with
  | nil => simp at hi
  | cons T rest ih =>
    cases i with
    | zero => simp [blockStart]
    | succ n =>
      have hn : n < rest.length := by simpa using hi
      have := ih n hn
      simp only [blockStart, List.take_succ_cons, List.map_cons, List.sum_cons,
        List.length_cons, List.get] at *
      omega

theorem mergedInv_step {Ts : List (Table α)} {M B : Table α}
    (hinv : MergedInv Ts M) (hB : Rectangular B) :
    MergedInv (Ts ++ [B]) (mergeTwo M B) := by
  obtain ⟨hw, hrectM, hkeys, hblocks⟩ := hinv
  refine ⟨?_, rectangular_mergeTwo hrectM hB, ?_, ?_⟩
  · simp [mergeTwo, hw]
  · intro k
    rw [mem_tableKeys_mergeTwo, hkeys]
    constructor
    · rintro (⟨T, hT, hk⟩ | hk)
      · exact ⟨T, List.mem_append_left _ hT, hk⟩
      · exact ⟨B, List.mem_append_right _ (by simp), hk⟩
    · rintro ⟨T, hT, hk⟩
      rcases List.mem_append.mp hT with h | h
      · exact Or.inl ⟨T, h, hk⟩
      · simp only [List.mem_singleton] at h
        subst h
        exact Or.inr hk
  · intro p hp i hi hnk j hj1 hj2
    have hstruct := mergeTwo_row_structure hrectM p hp
    rcases Nat.lt_or_ge i Ts.length with hiTs | hiB
    · -- block of one of the previously merged tables
      have hget : (Ts ++ [B]).get ⟨i, hi⟩ = Ts.get ⟨i, hiTs⟩ := by
        rw [List.get_append_left]
      rw [hget] at hnk
      rw [blockStart_append_lt hiTs] at hj1 hj2
      rw [hget] at hj2
      have hjM : j < M.width := by
        have := blockStart_add_width_le Ts i hiTs
        omega
      rcases hstruct.1 with ⟨ra, hra, hpk, hcells⟩ | ⟨_, hnull⟩
      · rw [hcells j hjM]
        exact hblocks ra hra i hiTs (hpk ▸ hnk) j hj1 hj2
      · exact hnull j hjM
    · -- block of the newly merged table B
      have hieq : i = Ts.length := by
        have := hi
        simp only [List.length_append, List.length_singleton] at this
        omega
      subst hieq
      have hget : (Ts ++ [B]).get ⟨Ts.length, hi⟩ = B := by
        rw [List.get_append_right] <;> simp
      rw [hget] at hnk
      have hstart : blockStart (Ts ++ [B]) Ts.length = M.width := by
        unfold blockStart
        rw [List.take_append_of_le_length (le_refl _), List.take_length, hw]
      rw [hstart] at hj1
      rw [hstart, hget] at hj2
      rcases hstruct.2 with ⟨rb, hrb, hpk, _⟩ | ⟨_, hnull⟩
      · exact absurd (List.mem_map.mpr ⟨rb, hrb, hpk.symm⟩) hnk
      · exact hnull j hj1

theorem mergedInv_foldl (ts : List (Table α)) :
    ∀ (Ts : List (Table α)) (M : Table α), MergedInv Ts M →
      (∀ T ∈ ts, Rectangular T) → MergedInv (Ts ++ ts) (ts.foldl mergeTwo M) := by
  induction ts with
  | nil => intro Ts M h _; simpa using h
  | cons B rest ih =>
    intro Ts M h hrect
    have hstep := mergedInv_step h (hrect B (by simp))
    have := ih (Ts ++ [B]) (mergeTwo M B) hstep
      (fun T hT => hrect T (List.mem_cons_of_mem _ hT))
    simpa [List.append_assoc] using this

theorem mergedInv_single {T : Table α} (hT : Rectangular T) :
    MergedInv [T] T := by
  refine ⟨by simp, hT, ?_, ?_⟩
  · intro k
    constructor
    · intro hk
      exact ⟨T, by simp, hk⟩
    · rintro ⟨S, hS, hk⟩
      simp only [List.mem_singleton] at hS
      subst hS
      exact hk
  · intro p hp i hi hnk j _ _
    have hi0 : i = 0 := by
      simp only [List.length_singleton] at hi
      omega
    subst hi0
    exact absurd (List.mem_map.mpr ⟨p, hp, rfl⟩) hnk

/-- Claim C7: for every non-empty list of rectangular input tables
keyed by `(Entity, Code, Year)`, the merged result exists, its set of
identifier triples is exactly the union of the inputs' triple sets, and
every measurement cell belonging to a source table that lacks the
row's triple is the null marker. -/
theorem merge_outer_union (tables : List (Table ℚ)) (hne : tables ≠ [])
    (hrect : ∀ T ∈ tables, Rectangular T) :
    ∃ M, merge_dict_datasets tables = some M ∧
      M.width = (tables.map Table.width).sum ∧
      Rectangular M ∧
      (∀ k, k ∈ tableKeys M ↔ ∃ T ∈ tables, k ∈ tableKeys T) ∧
      (∀ p ∈ M.rows, ∀ i (hi : i < tables.length),
        p.1 ∉ tableKeys (tables.get ⟨i, hi⟩) →
        ∀ j, blockStart tables i ≤ j →
          j < blockStart tables i + (tables.get ⟨i, hi⟩).width →
          p.2.getD j none = none) := by
  match tables, hne with
  | t :: ts, _ =>
    refine ⟨ts.foldl mergeTwo t, rfl, ?_⟩
    have h0 : MergedInv [t] t := mergedInv_single (hrect t (by simp))
    have h := mergedInv_foldl ts [t] t h0
      (fun T hT => hrect T (List.mem_cons_of_mem _ hT))
    exact h

/-- Witness for C7: two one-column tables with distinct keys merge into
a table carrying both triples, nulls in the block the key is absent
from. -/
theorem merge_outer_union_witness :
    ∃ M, merge_dict_datasets
        [(⟨1, [(⟨"A", some "AAA", 2000⟩, [some (1 : ℚ)])]⟩ : Table ℚ),
         ⟨1, [(⟨"B", some "BBB", 2001⟩, [some 2])]⟩] = some M ∧
      (⟨"A", some "AAA", 2000⟩ : Key) ∈ tableKeys M ∧
      (⟨"B", some "BBB", 2001⟩ : Key) ∈ tableKeys M := by
  obtain ⟨M, hM, _, _, hkeys, _⟩ := merge_outer_union
    [(⟨1, [(⟨"A", some "AAA", 2000⟩, [some (1 : ℚ)])]⟩ : Table ℚ),
     ⟨1, [(⟨"B", some "BBB", 2001⟩, [some 2])]⟩]
    (by simp)
    (by
      intro T hT
      simp only [List.mem_cons, List.mem_singleton] at hT
      rcases hT with rfl | hT
      · intro p hp; simp only [List.mem_singleton] at hp; subst hp; rfl
      · rcases hT with rfl | h
        · intro p hp; simp only [List.mem_singleton] at hp; subst hp; rfl
        · simp at h)
  refine ⟨M, hM, ?_, ?_⟩
  · exact (hkeys _).mpr ⟨⟨1, [(⟨"A", some "AAA", 2000⟩, [some 1])]⟩, by simp,
      by simp [tableKeys]⟩
  · exact (hkeys _).mpr ⟨⟨1, [(⟨"B", some "BBB", 2001⟩, [some 2])]⟩, by simp,
      by simp [tableKeys]⟩

/-- Claim C4 counterexample: on the empty input mapping the merge does
not signal an error — it returns Python `None` (here `Option.none`),
an undefined result, without raising. -/
theorem merge_empty_returns_none_counterexample :
    merge_dict_datasets ([] : List (Table ℚ)) = none := rfl

/-- Claim C4 (amended): an empty input mapping makes the merge return
`None` (no table at all) rather than raising an error, while every
non-empty mapping yields an actual table. -/
theorem merge_empty_amended :
    merge_dict_datasets ([] : List (Table ℚ)) = none ∧
    ∀ (tables : List (Table ℚ)), tables ≠ [] →
      (merge_dict_datasets tables).isSome := by
  refine ⟨rfl, ?_⟩
  intro tables hne
  match tables, hne with
  | t :: ts, _ => rfl

/-- Witness for C4 (amended): a singleton mapping yields a table. -/
theorem merge_empty_amended_witness :
    (merge_dict_datasets
      [(⟨1, [(⟨"A", some "AAA", 2000⟩, [some (1 : ℚ)])]⟩ : Table ℚ)]).isSome :=
  merge_empty_amended.2 [⟨1, [(⟨"A", some "AAA", 2000⟩, [some 1])]⟩] (by simp)

/-! ## IEEE-style float values (pandas float columns) -/

/-- The values a pandas float cell can hold: finite rationals, the two
infinities produced by division by zero, and `nan`, which doubles as
the pandas null marker for float columns. -/
inductive PFloat where
  | nan : PFloat
  | inf : PFloat
  | ninf : PFloat
  | fin : ℚ → PFloat
deriving DecidableEq

namespace PFloat

/-- `pd.isnull` on a float cell: true exactly for NaN. -/
def isnull : PFloat → Bool
  | nan => true
  | _ => false

/-- IEEE-754 division as numpy/pandas performs it (sign of zero not
tracked; a zero divisor acts as +0): `x/0` is `±inf` for finite nonzero
`x`, `0/0` is NaN, NaN propagates, `inf/inf` is NaN. -/
def div : PFloat → PFloat → PFloat
  | nan, _ => nan
  | _, nan => nan
  | inf, inf => nan
  | inf, ninf => nan
  | ninf, inf => nan
  | ninf, ninf => nan
  | inf, fin b => if b < 0 then ninf else inf
  | ninf, fin b => if b < 0 then inf else ninf
  | fin _, inf => fin 0
  | fin _, ninf => fin 0
  | fin a, fin b =>
    if b = 0 then (if a = 0 then nan else if a < 0 then ninf else inf)
    else fin (a / b)

/-- IEEE-754 multiplication (`inf * 0` is NaN, NaN propagates). -/
def mul : PFloat → PFloat → PFloat
  | nan, _ => nan
  | _, nan => nan
  | inf, inf => inf
  | inf, ninf => ninf
  | ninf, inf => ninf
  | ninf, ninf => inf
  | inf, fin b => if b = 0 then nan else if b < 0 then ninf else inf
  | fin a, inf => if a = 0 then nan else if a < 0 then ninf else inf
  | ninf, fin b => if b = 0 then nan else if b < 0 then inf else ninf
  | fin a, ninf => if a = 0 then nan else if a < 0 then inf else ninf
  | fin a, fin b => fin (a * b)

/-- IEEE-754 addition (`inf + -inf` is NaN, NaN propagates). -/
def add : PFloat → PFloat → PFloat
  | nan, _ => nan
  | _, nan => nan
  | inf, ninf => nan
  | ninf, inf => nan
  | inf, _ => inf
  | ninf, _ => ninf
  | fin _, inf => inf
  | fin _, ninf => ninf
  | fin a, fin b => fin (a + b)

/-- IEEE-754 negation. -/
def neg : PFloat → PFloat
  | nan => nan
  | inf => ninf
  | ninf => inf
  | fin a => fin (-a)

/-- IEEE-754 subtraction. -/
def sub (x y : PFloat) : PFloat := add x (neg y)

end PFloat

/-! ## Per-capita transform (`features.compute_per_capita`) -/

/-- A row of a float-valued panel: cells are IEEE floats, nulls being
NaN cells (how pandas stores null in float columns). -/
structure FRow where
  entity : String
  code : Option String
  year : Int
  cells : List PFloat
deriving DecidableEq

/-- One loop iteration of `compute_per_capita`: append the derived
column `col / population` to every row. -/
def addPerCapitaCol (cur : List FRow) (col populationCol : Nat) : List FRow :=
  cur.map (fun r =>
    { r with cells := r.cells ++
        [(r.cells.getD col PFloat.nan).div (r.cells.getD populationCol PFloat.nan)] })

/-- `features.compute_per_capita`: for each requested numerator column,
append the elementwise quotient by the population column as a new
derived column. -/
def compute_per_capita (df : List FRow) (numerators : List Nat)
    (populationCol : Nat) : List FRow :=
  numerators.foldl (fun cur col => addPerCapitaCol cur col populationCol) df

/-- The derived cells `compute_per_capita` produces for one row. -/
def perCapitaCells (r : FRow) (numerators : List Nat) (populationCol : Nat) :
    List PFloat :=
  numerators.map (fun col =>
    (r.cells.getD col PFloat.nan).div (r.cells.getD populationCol PFloat.nan))

/-- Claim C3 counterexample: a row with numerator 1 and population 0
gets per-capita value `+inf`, which is NOT null — contradicting the
claim that a zero population always yields a null derived value. -/
theorem per_capita_zero_pop_counterexample :
    compute_per_capita [⟨"A", some "AAA", 2000, [PFloat.fin 1, PFloat.fin 0]⟩] [0] 1 =
      [⟨"A", some "AAA", 2000, [PFloat.fin 1, PFloat.fin 0, PFloat.inf]⟩] ∧
    PFloat.isnull PFloat.inf = false := by
  constructor
  · rfl
  · rfl

theorem getD_append_singleton_lt (l : List β) (x d : β) (c : Nat)
    (h : c < l.length) : (l ++ [x]).getD c d = l.getD c d :=
  List.getD_append _ _ _ _ h

/-- Claim C3 (amended): the per-capita transform writes numerator
divided by population (IEEE float division) into a new derived column
for every row, as a total function (no exception); a NULL population
always yields a null derived value, but a ZERO population yields a null
value only when the numerator is itself zero or null — a nonzero finite
numerator over zero population yields `±inf`, which is not null. -/
theorem compute_per_capita_amended :
    (∀ (numerators : List Nat) (df : List FRow) (w populationCol : Nat),
      (∀ r ∈ df, r.cells.length = w) → (∀ c ∈ numerators, c < w) →
      populationCol < w →
      compute_per_capita df numerators populationCol =
        df.map (fun r =>
          { r with cells := r.cells ++ perCapitaCells r numerators populationCol })) ∧
    (∀ x : PFloat, (x.div PFloat.nan).isnull = true) ∧
    (∀ x : PFloat, ((x.div (PFloat.fin 0)).isnull = true) ↔
      (x = PFloat.nan ∨ x = PFloat.fin 0)) := by
  refine ⟨?_, ?_, ?_⟩
  · intro numerators
    induction numerators with
    | nil =>
      intro df w pop _ _ _
      simp [compute_per_capita, perCapitaCells]
    | cons c cs ih =>
      intro df w pop hrect hc hpop
      have hstep : compute_per_capita df (c :: cs) pop =
          compute_per_capita (addPerCapitaCol df c pop) cs pop := rfl
      rw [hstep, ih (addPerCapitaCol df c pop) (w + 1) pop ?_ ?_ ?_]
      · rw [addPerCapitaCol, List.map_map]
        apply List.map_congr_left
        intro r hr
        have hlen : r.cells.length = w := hrect r hr
        have hcw : c < r.cells.length := by rw [hlen]; exact hc c (by simp)
        have hpw : pop < r.cells.length := by rw [hlen]; exact hpop
        simp only [Function.comp]
        have hcells : perCapitaCells
            { r with cells := r.cells ++
                [(r.cells.getD c PFloat.nan).div (r.cells.getD pop PFloat.nan)] }
              cs pop = perCapitaCells r cs pop := by
          unfold perCapitaCells
          apply List.map_congr_left
          intro c2 hc2
          have hc2w : c2 < r.cells.length := by rw [hlen]; exact hc c2 (by simp [hc2])
          rw [getD_append_singleton_lt _ _ _ _ hc2w,
            getD_append_singleton_lt _ _ _ _ hpw]
        simp only [hcells]
        simp [perCapitaCells, List.append_assoc]
      · intro r hr
        rw [addPerCapitaCol] at hr
        obtain ⟨r0, hr0, rfl⟩ := List.mem_map.mp hr
        simp [hrect r0 hr0]
      · intro c2 hc2
        exact Nat.lt_succ_of_lt (hc c2 (by simp [hc2]))
      · exact Nat.lt_succ_of_lt hpop
  · intro x
    cases x <;> rfl
  · intro x
    cases x with
    | nan => simp [PFloat.div, PFloat.isnull]
    | inf => simp [PFloat.div, PFloat.isnull]
    | ninf => simp [PFloat.div, PFloat.isnull]
    | fin q =>
      by_cases hq : q = 0
      · subst hq
        simp [PFloat.div, PFloat.isnull]
      · have hdiv : (PFloat.fin q).div (PFloat.fin 0) =
            (if q < 0 then PFloat.ninf else PFloat.inf) := by
          simp [PFloat.div, hq]
        rw [hdiv]
        constructor
        · intro h
          by_cases hlt : q < 0
          · rw [if_pos hlt] at h
            simp [PFloat.isnull] at h
          · rw [if_neg hlt] at h
            simp [PFloat.isnull] at h
        · rintro (h | h)
          · exact absurd h (by simp)
          · rw [PFloat.fin.injEq] at h
            exact absurd h hq

/-- Witness for C3 (amended) at a concrete row: 6 divided by
population 2 gives derived cell 3. -/
theorem compute_per_capita_amended_witness :
    compute_per_capita [⟨"A", some "AAA", 2000, [PFloat.fin 6, PFloat.fin 2]⟩] [0] 1 =
      [⟨"A", some "AAA", 2000, [PFloat.fin 6, PFloat.fin 2, PFloat.fin 3]⟩] := by
  rw [compute_per_capita_amended.1 [0]
    [⟨"A", some "AAA", 2000, [PFloat.fin 6, PFloat.fin 2]⟩] 2 1
    (by intro r hr; simp only [List.mem_singleton] at hr; subst hr; rfl)
    (by intro c hc; simp only [List.mem_singleton] at hc; subst hc; omega)
    (by omega)]
  simp only [List.map_cons, List.map_nil, perCapitaCells]
  norm_num [PFloat.div]

/-! ## Regression engine (`models.fit_log_log_regression`, scipy `linregress`) -/

/-- The fields of the fit result the claims speak about (scipy also
returns a p-value and standard errors, built from the same moments and
not referenced by any claim). -/
structure LinResult where
  slope : PFloat
  intercept : PFloat
  r_squared : PFloat
deriving DecidableEq

/-- `np.amax(x) == np.amin(x)` for a NaN-free list. -/
def allEqQ : List ℚ → Bool
  | [] => true
  | a :: t => t.all (· == a)

/-- `scipy.stats.linregress` on paired data (`none` = NaN):
raises on empty input; raises when all (NaN-free) x values are
identical AND there is more than one point (scipy's guard has an
explicit `len(x) > 1`, so a single point falls through); otherwise
returns the moment-based results, NaN propagating through the moments
(a NaN input never triggers the identical-x error because
`nan == nan` is false). `r_squared` is `r**2 = ssxym^2/(ssxm*ssym)`,
with scipy's `r = 0` convention when `ssxm` or `ssym` is exactly 0. -/
def linregress (pts : List (Option ℚ × Option ℚ)) : Except String LinResult :=
  if pts.isEmpty then .error "Inputs must not be empty."
  else
    let xs := pts.map Prod.fst
    let xnan := xs.any Option.isNone
    if !xnan && allEqQ (xs.filterMap id) && decide (1 < pts.length) then
      .error "Cannot calculate a linear regression if all x values are identical"
    else
      let ys := pts.map Prod.snd
      let ynan := ys.any Option.isNone
      let n : ℚ := pts.length
      let xv := xs.map (fun o => o.getD 0)
      let yv := ys.map (fun o => o.getD 0)
      let xmean := xv.sum / n
      let ymean := yv.sum / n
      let ssxm : PFloat := if xnan then .nan
        else .fin (((xv.map (fun a => (a - xmean) ^ 2)).sum) / n)
      let ssym : PFloat := if ynan then .nan
        else .fin (((yv.map (fun a => (a - ymean) ^ 2)).sum) / n)
      let ssxym : PFloat := if xnan || ynan then .nan
        else .fin ((((xv.zip yv).map (fun p => (p.1 - xmean) * (p.2 - ymean))).sum) / n)
      let slope := ssxym.div ssxm
      let intercept := PFloat.sub (if ynan then .nan else .fin ymean)
        (PFloat.mul slope (if xnan then .nan else .fin xmean))
      let r2 : PFloat := if ssxm == PFloat.fin 0 || ssym == PFloat.fin 0 then .fin 0
        else (PFloat.mul ssxym ssxym).div (PFloat.mul ssxm ssym)
      .ok ⟨slope, intercept, r2⟩

/-- The index positions `models.fit_log_log_regression` keeps: the mask
`(~isnan(x)) & (~isnan(y))`. -/
def validPairs (xs ys : List (Option ℚ)) : List (Option ℚ × Option ℚ) :=
  (xs.zip ys).filter (fun p => p.1.isSome && p.2.isSome)

/-- `models.fit_log_log_regression`: drop positions where either value
is NaN, then call `linregress`. -/
def fit_log_log_regression (xs ys : List (Option ℚ)) : Except String LinResult :=
  linregress (validPairs xs ys)

/-- On a single valid pair scipy's identical-x guard does not fire
(`len(x) > 1` fails), the moments are zero and the result is returned
with NaN slope and intercept and `r = 0`. -/
theorem linregress_single (x y : ℚ) :
    linregress [(some x, some y)] =
      .ok ⟨PFloat.nan, PFloat.nan, PFloat.fin 0⟩ := by
  unfold linregress
  norm_num
  constructor <;> rfl

/-- Claim C5 counterexample: after dropping nulls exactly one valid
pair remains, yet the fit returns a result (with NaN slope) instead of
raising an insufficient-data error. -/
theorem fit_single_pair_counterexample :
    fit_log_log_regression [some 3, none] [some 4, some 5] =
      .ok ⟨PFloat.nan, PFloat.nan, PFloat.fin 0⟩ ∧
    ∀ m, fit_log_log_regression [some 3, none] [some 4, some 5] ≠ .error m := by
  have hv : fit_log_log_regression [some 3, none] [some 4, some 5] =
      linregress [(some 3, some 4)] := rfl
  refine ⟨hv.trans (linregress_single 3 4), ?_⟩
  intro m hc
  rw [hv, linregress_single 3 4] at hc
  cases hc

/-- Claim C5 (amended): the fit first drops positions where either
value is null; with zero valid pairs it raises an error, but with
exactly one valid pair it does NOT raise — scipy's identical-x guard
requires more than one point — and instead returns a result whose
slope and intercept are NaN and whose r_squared is 0. -/
theorem fit_insufficient_amended (xs ys : List (Option ℚ)) :
    (validPairs xs ys = [] →
      fit_log_log_regression xs ys = .error "Inputs must not be empty.") ∧
    (∀ x y : ℚ, validPairs xs ys = [(some x, some y)] →
      fit_log_log_regression xs ys =
        .ok ⟨PFloat.nan, PFloat.nan, PFloat.fin 0⟩) := by
  constructor
  · intro h
    rw [fit_log_log_regression, h]
    rfl
  · intro x y h
    rw [fit_log_log_regression, h]
    exact linregress_single x y

/-- Witness for C5 (amended) at concrete inputs: an all-null pair of
series errors, a one-valid-pair input returns the NaN result. -/
theorem fit_insufficient_amended_witness :
    fit_log_log_regression [(none : Option ℚ)] [(none : Option ℚ)] =
      .error "Inputs must not be empty." ∧
    fit_log_log_regression [some 1, none] [some 2, some 5] =
      .ok ⟨PFloat.nan, PFloat.nan, PFloat.fin 0⟩ :=
  ⟨(fit_insufficient_amended [none] [none]).1 rfl,
   (fit_insufficient_amended [some 1, none] [some 2, some 5]).2 1 2 rfl⟩

/-! ## Per-entity fit (`viz.scaling_analysis_by_entity`) -/

/-- Insert into a sorted list of entity names (pandas `groupby` visits
groups in ascending key order). -/
def insertSortedStr (a : String) : List String → List String
  | [] => [a]
  | y :: t => if a < y then a :: y :: t else y :: insertSortedStr a t

/-- Ascending insertion sort of entity names. -/
def sortStrs (l : List String) : List String := l.foldr insertSortedStr []

/-- The distinct entities of a frame in the order `groupby('Entity')`
visits them (ascending). -/
def entitiesSorted (df : Frame ℚ) : List String :=
  sortStrs ((df.map (fun r => r.entity)).dedup)

/-- The `(x, y)` column pairs of one entity group, as passed (without
any NaN masking) to `linregress`. -/
def groupPairs (g : Frame ℚ) (xCol yCol : Nat) : List (Option ℚ × Option ℚ) :=
  g.map (fun r => (r.cells.getD xCol none, r.cells.getD yCol none))

/-- The adjusted R² expression `1 - ((1 - r_squared) * (n - 1) / (n - k - 1))`
with `k = 1`: Python float arithmetic, whose division by the int
`n - k - 1 = 0` (i.e. `n = 2`) raises `ZeroDivisionError`. -/
def adjustedR2 (r2 : PFloat) (n : Nat) : Except String PFloat :=
  if n = 2 then .error "ZeroDivisionError: float division by zero"
  else .ok (PFloat.sub (PFloat.fin 1)
    (PFloat.div
      (PFloat.mul (PFloat.sub (PFloat.fin 1) r2) (PFloat.fin ((n : ℚ) - 1)))
      (PFloat.fin ((n : ℚ) - 2))))

/-- The per-entity loop of `scaling_analysis_by_entity`: skip groups
with at most one row, otherwise fit and compute the adjusted R²; any
exception aborts the whole loop. -/
def perEntityFits (df : Frame ℚ) (xCol yCol : Nat) :
    List String → Except String (List (String × PFloat × PFloat))
  | [] => .ok []
  | e :: es =>
    if (entityGroup df e).length ≤ 1 then perEntityFits df xCol yCol es
    else
      match linregress (groupPairs (entityGroup df e) xCol yCol) with
      | .error m => .error m
      | .ok lr =>
        match adjustedR2 lr.r_squared (entityGroup df e).length with
        | .error m => .error m
        | .ok adj =>
          (perEntityFits df xCol yCol es).map
            (fun rest => (e, lr.slope, adj) :: rest)

/-- `viz.scaling_analysis_by_entity`: per-entity slope and adjusted R²
collection (the plotting and printing around it consume these lists). -/
def scaling_analysis_by_entity (df : Frame ℚ) (xCol yCol : Nat) :
    Except String (List (String × PFloat × PFloat)) :=
  perEntityFits df xCol yCol (entitiesSorted df)

theorem mem_insertSortedStr (x a : String) (l : List String) :
    x ∈ insertSortedStr a l ↔ x = a ∨ x ∈ l := by
  induction l with
  | nil => simp [insertSortedStr]
  | cons y t ih =>
    by_cases hlt : a < y
    · simp [insertSortedStr, hlt]
    · simp only [insertSortedStr, if_neg hlt, List.mem_cons, ih]
      tauto

theorem mem_sortStrs (x : String) (l : List String) :
    x ∈ sortStrs l ↔ x ∈ l := by
  induction l with
  | nil => simp [sortStrs]
  | cons y t ih =>
    simp only [sortStrs, List.foldr_cons, List.mem_cons]
    rw [show t.foldr insertSortedStr [] = sortStrs t from rfl] at *
    rw [mem_insertSortedStr, ih]

theorem mem_entitiesSorted (df : Frame ℚ) (e : String) :
    e ∈ entitiesSorted df ↔ e ∈ df.map (fun r => r.entity) := by
  rw [entitiesSorted, mem_sortStrs, List.mem_dedup]

theorem adjustedR2_two (r2 : PFloat) :
    adjustedR2 r2 2 = .error "ZeroDivisionError: float division by zero" := rfl

theorem perEntityFits_ok_spec (df : Frame ℚ) (xCol yCol : Nat) :
    ∀ (es : List String) (res : List (String × PFloat × PFloat)),
      perEntityFits df xCol yCol es = .ok res →
      ∀ t ∈ res,
        2 ≤ (entityGroup df t.1).length ∧
        (entityGroup df t.1).length ≠ 2 ∧
        ∃ lr, linregress (groupPairs (entityGroup df t.1) xCol yCol) = .ok lr ∧
          t.2.1 = lr.slope ∧
          t.2.2 = PFloat.sub (PFloat.fin 1)
            (PFloat.div
              (PFloat.mul (PFloat.sub (PFloat.fin 1) lr.r_squared)
                (PFloat.fin (((entityGroup df t.1).length : ℚ) - 1)))
              (PFloat.fin (((entityGroup df t.1).length : ℚ) - 2))) := by
  intro es
  induction es with
  | nil =>
    intro res h t ht
    simp only [perEntityFits, Except.ok.injEq] at h
    subst h
    simp at ht
  | cons e es ih =>
    intro res h t ht
    by_cases hlen : (entityGroup df e).length ≤ 1
    · rw [perEntityFits, if_pos hlen] at h
      exact ih res h t ht
    · rw [perEntityFits, if_neg hlen] at h
      rcases hlr : linregress (groupPairs (entityGroup df e) xCol yCol) with m | lr
      · rw [hlr] at h
        simp at h
      · rw [hlr] at h
        dsimp only at h
        rcases hadj : adjustedR2 lr.r_squared (entityGroup df e).length with m | adj
        · rw [hadj] at h
          simp at h
        · rw [hadj] at h
          dsimp only at h
          rcases hrec : perEntityFits df xCol yCol es with m | rest
          · rw [hrec] at h
            simp [Except.map] at h
          · rw [hrec] at h
            simp only [Except.map, Except.ok.injEq] at h
            subst h
            rcases List.mem_cons.mp ht with rfl | htail
            · dsimp only
              have hne2 : (entityGroup df e).length ≠ 2 := by
                intro h2
                rw [h2, adjustedR2_two] at hadj
                cases hadj
              refine ⟨by omega, hne2, lr, hlr, rfl, ?_⟩
              rw [adjustedR2, if_neg hne2] at hadj
              injection hadj with hadj2
              exact hadj2.symm
            · exact ih rest hrec t htail

theorem perEntityFits_error_of_two (df : Frame ℚ) (xCol yCol : Nat) :
    ∀ (es : List String), (∃ e ∈ es, (entityGroup df e).length = 2) →
      ∃ m, perEntityFits df xCol yCol es = .error m := by
  intro es
  induction es with
  | nil =>
    rintro ⟨e, he, _⟩
    simp at he
  | cons a es ih =>
    rintro ⟨e, he, hlen2⟩
    rcases List.mem_cons.mp he with rfl | hmem
    · have hnle : ¬ (entityGroup df e).length ≤ 1 := by omega
      rw [perEntityFits, if_neg hnle]
      rcases hlr : linregress (groupPairs (entityGroup df e) xCol yCol) with m | lr
      · exact ⟨m, rfl⟩
      · dsimp only
        rw [hlen2, adjustedR2_two]
        exact ⟨_, rfl⟩
    · by_cases hle : (entityGroup df a).length ≤ 1
      · rw [perEntityFits, if_pos hle]
        exact ih ⟨e, hmem, hlen2⟩
      · rw [perEntityFits, if_neg hle]
        rcases hlr : linregress (groupPairs (entityGroup df a) xCol yCol) with m | lr
        · exact ⟨m, rfl⟩
        · dsimp only
          rcases hadj : adjustedR2 lr.r_squared (entityGroup df a).length with m | adj
          · exact ⟨m, rfl⟩
          · dsimp only
            obtain ⟨m, hm⟩ := ih ⟨e, hmem, hlen2⟩
            exact ⟨m, by rw [hm]; rfl⟩

/-- Claim C9 (amended): the per-entity fit omits (without error) every
entity with fewer than 2 observations; every reported entity has at
least 2 — in fact at least 3 — observations and carries the slope of
its group's regression together with the adjusted R² value
`1 - (1 - r²)·(n - 1)/(n - k - 1)`, `k = 1`; but an entity with exactly
2 observations makes the whole computation raise a division-by-zero
error (denominator `n - k - 1 = 0`) instead of reporting a value. -/
theorem scaling_by_entity_amended (df : Frame ℚ) (xCol yCol : Nat) :
    (∀ res, scaling_analysis_by_entity df xCol yCol = .ok res →
      ∀ t ∈ res,
        2 ≤ (entityGroup df t.1).length ∧
        (entityGroup df t.1).length ≠ 2 ∧
        ∃ lr, linregress (groupPairs (entityGroup df t.1) xCol yCol) = .ok lr ∧
          t.2.1 = lr.slope ∧
          t.2.2 = PFloat.sub (PFloat.fin 1)
            (PFloat.div
              (PFloat.mul (PFloat.sub (PFloat.fin 1) lr.r_squared)
                (PFloat.fin (((entityGroup df t.1).length : ℚ) - 1)))
              (PFloat.fin (((entityGroup df t.1).length : ℚ) - 2)))) ∧
    (∀ res, scaling_analysis_by_entity df xCol yCol = .ok res →
      ∀ e, (entityGroup df e).length < 2 → e ∉ res.map Prod.fst) ∧
    (∀ e, e ∈ entitiesSorted df → (entityGroup df e).length = 2 →
      ∃ m, scaling_analysis_by_entity df xCol yCol = .error m) := by
  refine ⟨?_, ?_, ?_⟩
  · intro res h
    exact perEntityFits_ok_spec df xCol yCol (entitiesSorted df) res h
  · intro res h e hlt hmem
    obtain ⟨t, ht, hfst⟩ := List.mem_map.mp hmem
    have := (perEntityFits_ok_spec df xCol yCol (entitiesSorted df) res h t ht).1
    rw [hfst] at this
    omega
  · intro e he hlen
    exact perEntityFits_error_of_two df xCol yCol (entitiesSorted df) ⟨e, he, hlen⟩

/-- Witness for C9 (amended): an entity with exactly two rows makes the
whole per-entity analysis raise. -/
theorem scaling_by_entity_amended_witness :
    ∃ m, scaling_analysis_by_entity
      [⟨"A", some "AAA", 2000, [some 0, some 0]⟩,
       ⟨"A", some "AAA", 2001, [some 1, some 2]⟩] 0 1 = .error m :=
  (scaling_by_entity_amended
      [⟨"A", some "AAA", 2000, [some 0, some 0]⟩,
       ⟨"A", some "AAA", 2001, [some 1, some 2]⟩] 0 1).2.2 "A"
    (by rw [mem_entitiesSorted]; simp)
    (by simp [entityGroup])

/-- Claim C9 counterexample: on a panel whose single entity has exactly
2 observations the function does not report any adjusted R² — the
adjusted-R² expression divides by `n - k - 1 = 0` and the whole
analysis raises a ZeroDivisionError. -/
theorem scaling_by_entity_two_obs_counterexample :
    (∃ m, scaling_analysis_by_entity
      [⟨"B", some "BBB", 2000, [some 0, some 0]⟩,
       ⟨"B", some "BBB", 2001, [some 1, some 2]⟩] 0 1 = .error m) ∧
    ∀ res, scaling_analysis_by_entity
      [⟨"B", some "BBB", 2000, [some 0, some 0]⟩,
       ⟨"B", some "BBB", 2001, [some 1, some 2]⟩] 0 1 ≠ .ok res := by
  have h := perEntityFits_error_of_two
    [⟨"B", some "BBB", 2000, [some 0, some 0]⟩,
     ⟨"B", some "BBB", 2001, [some 1, some 2]⟩] 0 1
    (entitiesSorted [⟨"B", some "BBB", 2000, [some 0, some 0]⟩,
       ⟨"B", some "BBB", 2001, [some 1, some 2]⟩])
    ⟨"B", by rw [mem_entitiesSorted]; simp, by simp [entityGroup]⟩
  obtain ⟨m, hm⟩ := h
  refine ⟨⟨m, hm⟩, ?_⟩
  intro res hres
  rw [scaling_analysis_by_entity] at hres
  rw [hres] at hm
  cases hm

/-! ## Interpolation (`features.interpolate_missing`) -/

/-- The `(position, value)` pairs of the non-null entries of a column. -/
def validEntries (xs : List (Option ℚ)) : List (Nat × ℚ) :=
  (List.range xs.length).filterMap (fun i => (xs.getD i none).map (fun v => (i, v)))

/-- `Series.interpolate(method='linear', limit_direction='both')` on one
column: positional linear interpolation between the nearest valid
neighbours for interior gaps, clamping to the nearest valid value
before the first / after the last valid position (numpy `interp`
semantics), and no change when there is no valid value at all. -/
def interpCol (xs : List (Option ℚ)) : List (Option ℚ) :=
  let valid := validEntries xs
  (List.range xs.length).map (fun i =>
    match xs.getD i none with
    | some v => some v
    | none =>
      match (valid.filter (fun q => q.1 < i)).getLast?,
          valid.find? (fun q => i < q.1) with
      | some jv, some kv =>
        some (jv.2 + (kv.2 - jv.2) * (((i : ℚ) - (jv.1 : ℚ)) / ((kv.1 : ℚ) - (jv.1 : ℚ))))
      | some jv, none => some jv.2
      | none, some kv => some kv.2
      | none, none => none)

/-- Interpolate every measurement column of one entity group; the
identifier columns are untouched and the rows keep their order. -/
def interpolateGroup (g : Frame ℚ) : Frame ℚ :=
  let w := frameWidth g
  let cols := (List.range w).map
    (fun j => interpCol (g.map (fun r => r.cells.getD j none)))
  ((List.range g.length).zip g).map (fun p =>
    { p.2 with cells := (List.range w).map (fun j => (cols.getD j []).getD p.1 none) })

/-- `features.interpolate_missing`: interpolate within each
`groupby('Entity')` group (groups visited in ascending key order) and
concatenate the per-group results (`reset_index(drop=True)`). -/
def interpolate_missing (df : Frame ℚ) : Frame ℚ :=
  (entitiesSorted df).flatMap (fun e => interpolateGroup (entityGroup df e))

theorem getD_map_range (n : Nat) (f : Nat → β) (d : β) (j : Nat) (h : j < n) :
    ((List.range n).map f).getD j d = f j := by
  rw [List.getD_eq_getElem?_getD, List.getElem?_map, List.getElem?_range h]
  rfl

theorem getD_map_range_ge (n : Nat) (f : Nat → β) (d : β) (j : Nat) (h : n ≤ j) :
    ((List.range n).map f).getD j d = d := by
  rw [List.getD_eq_getElem?_getD, List.getElem?_eq_none]
  · rfl
  · simpa using h

theorem range_map_getD (l : List β) (d : β) :
    (List.range l.length).map (fun j => l.getD j d) = l := by
  apply List.ext_getElem
  · simp
  · intro i h1 h2
    rw [List.getElem_map, List.getElem_range, List.getD_eq_getElem]

theorem getD_none_of_all_none (xs : List (Option ℚ)) (i : Nat)
    (h : ∀ c ∈ xs, c = none) : xs.getD i none = none := by
  rw [List.getD_eq_getElem?_getD]
  rcases h2 : xs[i]? with _ | c
  · rfl
  · exact h c (List.getElem?_mem h2)

theorem validEntries_eq_nil (xs : List (Option ℚ)) (h : ∀ c ∈ xs, c = none) :
    validEntries xs = [] := by
  rw [validEntries, List.filterMap_eq_nil]
  intro i _
  rw [getD_none_of_all_none xs i h]
  rfl

theorem interpCol_of_all_none (xs : List (Option ℚ)) (h : ∀ c ∈ xs, c = none) :
    interpCol xs = xs := by
  unfold interpCol
  rw [validEntries_eq_nil xs h]
  have : ∀ i ∈ List.range xs.length,
      (match xs.getD i none with
        | some v => some v
        | none =>
          match (([] : List (Nat × ℚ)).filter (fun q => q.1 < i)).getLast?,
              ([] : List (Nat × ℚ)).find? (fun q => i < q.1) with
          | some jv, some kv =>
            some (jv.2 + (kv.2 - jv.2) * (((i : ℚ) - (jv.1 : ℚ)) / ((kv.1 : ℚ) - (jv.1 : ℚ))))
          | some jv, none => some jv.2
          | none, some kv => some kv.2
          | none, none => none) = xs.getD i none := by
    intro i _
    rcases h2 : xs.getD i none with _ | v <;> rfl
  rw [List.map_congr_left this, range_map_getD]

theorem interpCol_length (xs : List (Option ℚ)) :
    (interpCol xs).length = xs.length := by
  unfold interpCol
  simp

theorem interpCol_singleton (c : Option ℚ) : interpCol [c] = [c] := by
  cases c <;> rfl

theorem mem_interpolateGroup (g : Frame ℚ) (r2 : Row ℚ)
    (h : r2 ∈ interpolateGroup g) : ∃ r ∈ g, r2.entity = r.entity := by
  unfold interpolateGroup at h
  obtain ⟨p, hp, rfl⟩ := List.mem_map.mp h
  exact ⟨p.2, (List.of_mem_zip hp).2, rfl⟩

theorem entity_of_mem_entityGroup (df : Frame ℚ) (e : String) (r : Row ℚ)
    (h : r ∈ entityGroup df e) : r.entity = e := by
  rw [entityGroup, List.mem_filter] at h
  simpa using h.2

theorem filter_interpolateGroup_self (df : Frame ℚ) (e : String) :
    (interpolateGroup (entityGroup df e)).filter (fun r => r.entity == e) =
      interpolateGroup (entityGroup df e) := by
  apply List.filter_eq_self.mpr
  intro r2 hr2
  obtain ⟨r, hr, hent⟩ := mem_interpolateGroup _ _ hr2
  simp [hent, entity_of_mem_entityGroup df e r hr]

theorem filter_interpolateGroup_ne (df : Frame ℚ) (a e : String) (hne : a ≠ e) :
    (interpolateGroup (entityGroup df a)).filter (fun r => r.entity == e) = [] := by
  rw [List.filter_eq_nil]
  intro r2 hr2
  obtain ⟨r, hr, hent⟩ := mem_interpolateGroup _ _ hr2
  simp [hent, entity_of_mem_entityGroup df a r hr, hne]

theorem entityGroup_eq_nil (df : Frame ℚ) (e : String)
    (h : e ∉ df.map (fun r => r.entity)) : entityGroup df e = [] := by
  rw [entityGroup, List.filter_eq_nil]
  intro r hr
  simp only [beq_iff_eq]
  intro hent
  exact h (List.mem_map.mpr ⟨r, hr, hent⟩)

theorem nodup_insertSortedStr (a : String) (l : List String)
    (ha : a ∉ l) (hl : l.Nodup) : (insertSortedStr a l).Nodup := by
  induction l with
  | nil => simp [insertSortedStr]
  | cons y t ih =>
    rw [insertSortedStr]
    by_cases hlt : a < y
    · rw [if_pos hlt]
      exact List.nodup_cons.mpr ⟨ha, hl⟩
    · rw [if_neg hlt]
      rw [List.nodup_cons] at hl ⊢
      refine ⟨?_, ih (fun h => ha (List.mem_cons_of_mem _ h)) hl.2⟩
      rw [mem_insertSortedStr]
      rintro (rfl | h)
      · exact ha (by simp)
      · exact hl.1 h

theorem nodup_sortStrs (l : List String) (h : l.Nodup) : (sortStrs l).Nodup := by
  induction l with
  | nil => simp [sortStrs]
  | cons y t ih =>
    rw [List.nodup_cons] at h
    show (insertSortedStr y (sortStrs t)).Nodup
    exact nodup_insertSortedStr _ _ (fun hm => h.1 ((mem_sortStrs _ _).mp hm)) (ih h.2)

theorem nodup_entitiesSorted (df : Frame ℚ) : (entitiesSorted df).Nodup :=
  nodup_sortStrs _ (List.nodup_dedup _)

theorem filter_flatMap_groups (df : Frame ℚ) (e : String) :
    ∀ (es : List String), es.Nodup →
      (es.flatMap (fun a => interpolateGroup (entityGroup df a))).filter
          (fun r => r.entity == e) =
        if e ∈ es then interpolateGroup (entityGroup df e) else [] := by
  intro es
  induction es with
  | nil => simp
  | cons a t ih =>
    intro hnd
    rw [List.nodup_cons] at hnd
    rw [List.flatMap_cons, List.filter_append, ih hnd.2]
    by_cases hae : a = e
    · subst hae
      rw [filter_interpolateGroup_self, if_neg hnd.1, if_pos (by simp)]
      simp
    · rw [filter_interpolateGroup_ne df a e hae]
      by_cases het : e ∈ t
      · rw [if_pos het, if_pos (List.mem_cons_of_mem _ het)]
        simp
      · rw [if_neg het, if_neg ?_]
        · simp
        · intro hmem
          rcases List.mem_cons.mp hmem with rfl | hh
          · exact hae rfl
          · exact het hh

theorem entityGroup_interpolate (df : Frame ℚ) (e : String) :
    entityGroup (interpolate_missing df) e = interpolateGroup (entityGroup df e) := by
  rw [interpolate_missing, entityGroup,
    filter_flatMap_groups df e _ (nodup_entitiesSorted df)]
  by_cases he : e ∈ entitiesSorted df
  · rw [if_pos he]
  · rw [if_neg he]
    rw [mem_entitiesSorted] at he
    rw [entityGroup_eq_nil df e he]
    rfl

theorem interpolateGroup_singleton (r : Row ℚ) : interpolateGroup [r] = [r] := by
  obtain ⟨ent, cod, yr, cs⟩ := r
  unfold interpolateGroup
  have hw : frameWidth [(⟨ent, cod, yr, cs⟩ : Row ℚ)] = cs.length := by
    simp [frameWidth]
  rw [hw]
  have hzip : (List.range ([(⟨ent, cod, yr, cs⟩ : Row ℚ)] : Frame ℚ).length).zip
      [(⟨ent, cod, yr, cs⟩ : Row ℚ)] = [((0 : Nat), (⟨ent, cod, yr, cs⟩ : Row ℚ))] := rfl
  rw [hzip, List.map_cons, List.map_nil]
  simp only [List.cons.injEq, and_true, Row.mk.injEq, true_and]
  apply List.ext_getElem
  · simp
  · intro i h1 h2
    simp only [List.getElem_map, List.getElem_range]
    rw [getD_map_range _ _ _ i (by simpa using h2)]
    simp only [List.map_cons, List.map_nil]
    rw [interpCol_singleton, List.getD_cons_zero, List.getD_eq_getElem]

theorem interpolate_missing_singleton (r : Row ℚ) : interpolate_missing [r] = [r] := by
  have hent : entitiesSorted [r] = [r.entity] := by
    simp [entitiesSorted, sortStrs, insertSortedStr]
  rw [interpolate_missing, hent]
  have hgrp : entityGroup [r] r.entity = [r] := by
    simp [entityGroup]
  rw [List.flatMap_cons, List.flatMap_nil, hgrp, interpolateGroup_singleton,
    List.append_nil]

theorem interpolate_all_none (df : Frame ℚ) (e : String) (j : Nat)
    (h : ∀ r ∈ entityGroup df e, r.cells.getD j none = none) :
    ∀ r2 ∈ entityGroup (interpolate_missing df) e, r2.cells.getD j none = none := by
  intro r2 hr2
  rw [entityGroup_interpolate] at hr2
  unfold interpolateGroup at hr2
  obtain ⟨p, hp, rfl⟩ := List.mem_map.mp hr2
  dsimp only
  by_cases hjw : j < frameWidth (entityGroup df e)
  · rw [getD_map_range _ _ _ _ hjw, getD_map_range _ _ _ _ hjw]
    have hcol : ∀ c ∈ (entityGroup df e).map (fun r => r.cells.getD j none),
        c = none := by
      intro c hc
      obtain ⟨r, hr, rfl⟩ := List.mem_map.mp hc
      exact h r hr
    rw [interpCol_of_all_none _ hcol]
    exact getD_none_of_all_none _ _ hcol
  · rw [getD_map_range_ge _ _ _ _ (not_lt.mp hjw)]

theorem interpCol_example : interpCol [some 1, none, some 3] = [some 1, some 2, some 3] := by
  have hv : validEntries [some 1, none, some 3] = [(0, 1), (2, 3)] := by
    decide
  unfold interpCol
  rw [hv]
  norm_num [List.range_succ]

theorem interpolate_missing_example :
    interpolate_missing
      [⟨"A", some "AAA", 2000, [some 1]⟩, ⟨"A", some "AAA", 2001, [none]⟩,
       ⟨"A", some "AAA", 2002, [some 3]⟩] =
      [⟨"A", some "AAA", 2000, [some 1]⟩, ⟨"A", some "AAA", 2001, [some 2]⟩,
       ⟨"A", some "AAA", 2002, [some 3]⟩] := by
  have hES : entitiesSorted
      [⟨"A", some "AAA", 2000, [some 1]⟩, ⟨"A", some "AAA", 2001, [none]⟩,
       ⟨"A", some "AAA", 2002, [some 3]⟩] = ["A"] := by decide
  rw [interpolate_missing, hES, List.flatMap_cons, List.flatMap_nil, List.append_nil]
  have hG : entityGroup
      [⟨"A", some "AAA", 2000, [some 1]⟩, ⟨"A", some "AAA", 2001, [none]⟩,
       (⟨"A", some "AAA", 2002, [some 3]⟩ : Row ℚ)] "A" =
      [⟨"A", some "AAA", 2000, [some 1]⟩, ⟨"A", some "AAA", 2001, [none]⟩,
       ⟨"A", some "AAA", 2002, [some 3]⟩] := by decide
  rw [hG]
  unfold interpolateGroup
  have hw : frameWidth
      [⟨"A", some "AAA", 2000, [some 1]⟩, ⟨"A", some "AAA", 2001, [none]⟩,
       (⟨"A", some "AAA", 2002, [some 3]⟩ : Row ℚ)] = 1 := by decide
  rw [hw]
  have h1 : List.range 1 = [0] := rfl
  have h3 : List.range 3 = [0, 1, 2] := rfl
  simp only [List.length_cons, List.length_nil, h1, h3, List.map_cons, List.map_nil,
    List.zip_cons_cons, List.zip_nil_right, List.getD_cons_zero, List.getD_cons_succ]
  rw [interpCol_example]
  simp

/-- Claim C8: interpolation operates per entity group and never
crosses entity boundaries — the rows of entity `e` in the output are
exactly the interpolation of the rows of entity `e` of the input; for a
single-entity group with values [1, null, 3] at years
[2000, 2001, 2002] the output value at year 2001 equals 2 (linear
midpoint); a group of size 1 is returned unchanged; and a column that
is entirely null within a group stays entirely null. -/
theorem interpolate_missing_spec :
    (∀ (df : Frame ℚ) (e : String),
      entityGroup (interpolate_missing df) e = interpolateGroup (entityGroup df e)) ∧
    interpolate_missing
        [⟨"A", some "AAA", 2000, [some 1]⟩, ⟨"A", some "AAA", 2001, [none]⟩,
         ⟨"A", some "AAA", 2002, [some 3]⟩] =
      [⟨"A", some "AAA", 2000, [some 1]⟩, ⟨"A", some "AAA", 2001, [some 2]⟩,
       ⟨"A", some "AAA", 2002, [some 3]⟩] ∧
    (∀ r : Row ℚ, interpolate_missing [r] = [r]) ∧
    (∀ (df : Frame ℚ) (e : String) (j : Nat),
      (∀ r ∈ entityGroup df e, r.cells.getD j none = none) →
      ∀ r2 ∈ entityGroup (interpolate_missing df) e, r2.cells.getD j none = none) :=
  ⟨entityGroup_interpolate, interpolate_missing_example, interpolate_missing_singleton,
   interpolate_all_none⟩

/-- Witness for C8 at a concrete one-row panel with an all-null column. -/
theorem interpolate_missing_spec_witness :
    (⟨"Z", some "ZZZ", 2000, ([none] : List (Option ℚ))⟩ : Row ℚ).cells.getD 0 none = none :=
  interpolate_missing_spec.2.2.2 [⟨"Z", some "ZZZ", 2000, [none]⟩] "Z" 0
    (by decide)
    ⟨"Z", some "ZZZ", 2000, [none]⟩
    (by
      rw [interpolate_missing_spec.2.2.1 ⟨"Z", some "ZZZ", 2000, [none]⟩]
      decide)

/-! ## Log transform (`features.log_transform`) and the world aggregate
(`pipeline.main`) -/

/-- One cell of the check `(df[col] < 0).any()` (a NaN cell compares
false, so nulls never trigger the error). -/
def cellNeg [LT α] [Zero α] [DecidableRel ((· < ·) : α → α → Prop)]
    (c : Option α) : Bool :=
  match c with
  | none => false
  | some x => decide (x < 0)

/-- `(df[col] < 0).any()` over column `j`. -/
def colHasNeg [LT α] [Zero α] [DecidableRel ((· < ·) : α → α → Prop)]
    (df : Frame α) (j : Nat) : Bool :=
  df.any (fun r => cellNeg (r.cells.getD j none))

/-- Append the derived log column for column `j`; `f` is the
elementwise `log1p`-and-change-of-base map (NaN stays NaN). -/
def addLogCol (f : α → α) (df : Frame α) (j : Nat) : Frame α :=
  df.map (fun r => { r with cells := r.cells ++ [(r.cells.getD j none).map f] })

/-- `features.log_transform` with the Python in-place mutation made
explicit: process the requested columns in order; each column is
checked for negative values immediately before its own transformation,
and a failing check raises `ValueError`, leaving the frame in the state
reached so far (derived columns of earlier requested columns are
already appended). -/
def log_transform_run [LT α] [Zero α] [DecidableRel ((· < ·) : α → α → Prop)]
    (f : α → α) : Frame α → List Nat → Frame α × Option String
  | df, [] => (df, none)
  | df, j :: rest =>
    if colHasNeg df j then
      (df, some "ValueError: column contains negative values, cannot apply log1p transform.")
    else log_transform_run f (addLogCol f df j) rest

/-- The frame state after transforming a list of clean columns. -/
def appendLogCols [LT α] [Zero α] [DecidableRel ((· < ·) : α → α → Prop)]
    (f : α → α) (df : Frame α) (cols : List Nat) : Frame α :=
  cols.foldl (addLogCol f) df

theorem colHasNeg_addLogCol [LT α] [Zero α] [DecidableRel ((· < ·) : α → α → Prop)]
    (f : α → α) (df : Frame α) (w i j : Nat)
    (hrect : ∀ r ∈ df, r.cells.length = w) (hjw : j < w) :
    colHasNeg (addLogCol f df i) j = colHasNeg df j := by
  unfold colHasNeg addLogCol
  rw [List.any_map]
  rw [Bool.eq_iff_iff, List.any_eq_true, List.any_eq_true]
  constructor
  · rintro ⟨r, hr, hp⟩
    refine ⟨r, hr, ?_⟩
    rwa [Function.comp, List.getD_append _ _ _ _ (by rw [hrect r hr]; exact hjw)] at hp
  · rintro ⟨r, hr, hp⟩
    refine ⟨r, hr, ?_⟩
    rw [Function.comp, List.getD_append _ _ _ _ (by rw [hrect r hr]; exact hjw)]
    exact hp

theorem addLogCol_rect [LT α] [Zero α] [DecidableRel ((· < ·) : α → α → Prop)]
    (f : α → α) (df : Frame α) (w i : Nat)
    (hrect : ∀ r ∈ df, r.cells.length = w) :
    ∀ r ∈ addLogCol f df i, r.cells.length = w + 1 := by
  intro r hr
  obtain ⟨r0, hr0, rfl⟩ := List.mem_map.mp hr
  simp [hrect r0 hr0]

/-- The specification-side description of a clean transform: every
requested column's derived log column appended, in request order. -/
def withLogCols (f : α → α) (cols : List Nat) (df : Frame α) : Frame α :=
  df.map (fun r =>
    { r with cells := r.cells ++ cols.map (fun i => (r.cells.getD i none).map f) })

theorem withLogCols_nil (f : α → α) (df : Frame α) : withLogCols f [] df = df := by
  unfold withLogCols
  apply List.map_congr_left ?_ |>.trans (List.map_id df)
  intro r _
  simp

theorem withLogCols_cons (f : α → α) (df : Frame α) (w c : Nat) (cs : List Nat)
    (hrect : ∀ r ∈ df, r.cells.length = w) (hcw : ∀ i ∈ cs, i < w) :
    withLogCols f cs (addLogCol f df c) = withLogCols f (c :: cs) df := by
  unfold withLogCols addLogCol
  rw [List.map_map]
  apply List.map_congr_left
  intro r hr
  have hlen : r.cells.length = w := hrect r hr
  simp only [Function.comp]
  have hstable : ∀ i ∈ cs,
      ((r.cells ++ [(r.cells.getD c none).map f]).getD i none) =
        r.cells.getD i none := by
    intro i hi
    exact List.getD_append _ _ _ _ (by rw [hlen]; exact hcw i hi)
  rw [List.map_congr_left (fun i hi => by rw [hstable i hi])]
  simp [List.append_assoc]

/-- A run over columns that are all clean transforms them all in
order, appending one derived column per requested column. -/
theorem log_transform_run_clean [LT α] [Zero α]
    [DecidableRel ((· < ·) : α → α → Prop)] (f : α → α) :
    ∀ (cols : List Nat) (df : Frame α) (w : Nat),
      (∀ r ∈ df, r.cells.length = w) → (∀ i ∈ cols, i < w) →
      (∀ i ∈ cols, colHasNeg df i = false) →
      log_transform_run f df cols = (withLogCols f cols df, none) := by
  intro cols
  induction cols with
  | nil =>
    intro df w _ _ _
    rw [withLogCols_nil]
    rfl
  | cons c cs ih =>
    intro df w hrect hcw hclean
    have hc : colHasNeg df c = false := hclean c (by simp)
    show (if colHasNeg df c then _ else _) = _
    rw [hc]
    simp only [Bool.false_eq_true, if_false]
    rw [ih (addLogCol f df c) (w + 1) (addLogCol_rect f df w c hrect)
      (fun i hi => Nat.lt_succ_of_lt (hcw i (by simp [hi])))
      (fun i hi => by
        rw [colHasNeg_addLogCol f df w c i hrect (hcw i (by simp [hi]))]
        exact hclean i (by simp [hi]))]
    rw [withLogCols_cons f df w c cs hrect (fun i hi => hcw i (by simp [hi]))]

/-- Claim C2 (amended): when some requested column contains a negative
value, `log_transform` raises a `ValueError`; but the check is per
column, immediately before that column's own transformation, so the
derived columns of the requested columns preceding the first offending
one remain appended to the frame — the input is left unmutated only
when the first offending column comes first in the request list. -/
theorem log_transform_amended [LT α] [Zero α]
    [DecidableRel ((· < ·) : α → α → Prop)] (f : α → α) :
    ∀ (good : List Nat) (df : Frame α) (w j : Nat) (rest : List Nat),
      (∀ r ∈ df, r.cells.length = w) → (∀ i ∈ good, i < w) → j < w →
      (∀ i ∈ good, colHasNeg df i = false) → colHasNeg df j = true →
      log_transform_run f df (good ++ j :: rest) =
        (withLogCols f good df,
         some "ValueError: column contains negative values, cannot apply log1p transform.") := by
  intro good
  induction good with
  | nil =>
    intro df w j rest hrect _ hjw _ hbad
    rw [withLogCols_nil]
    show (if colHasNeg df j then _ else _) = _
    rw [hbad]
    simp
  | cons g gs ih =>
    intro df w j rest hrect hgw hjw hgood hbad
    have hg : colHasNeg df g = false := hgood g (by simp)
    show (if colHasNeg df g then _ else _) = _
    rw [hg]
    simp only [Bool.false_eq_true, if_false, List.append_eq]
    rw [ih (addLogCol f df g) (w + 1) j rest (addLogCol_rect f df w g hrect)
      (fun i hi => Nat.lt_succ_of_lt (hgw i (by simp [hi])))
      (Nat.lt_succ_of_lt hjw)
      (fun i hi => by
        rw [colHasNeg_addLogCol f df w g i hrect (hgw i (by simp [hi]))]
        exact hgood i (by simp [hi]))
      (by rw [colHasNeg_addLogCol f df w g j hrect hjw]; exact hbad)]
    rw [withLogCols_cons f df w g gs hrect (fun i hi => hgw i (by simp [hi]))]

/-- Witness for C2 (amended) at a concrete frame over ℚ: first column
clean, second column negative — the run stops with the error after
appending the first derived column. -/
theorem log_transform_amended_witness :
    log_transform_run (fun q : ℚ => q)
        [⟨"A", some "AAA", 2000, [some 1, some (-1)]⟩] ([0] ++ 1 :: []) =
      (withLogCols (fun q : ℚ => q) [0]
          [⟨"A", some "AAA", 2000, [some 1, some (-1)]⟩],
       some "ValueError: column contains negative values, cannot apply log1p transform.") :=
  log_transform_amended (fun q : ℚ => q) [0]
    [⟨"A", some "AAA", 2000, [some 1, some (-1)]⟩] 2 1 []
    (by decide) (by decide) (by decide) (by decide) (by decide)

/-- Claim C2 counterexample: with the true `log1p` on the reals, a
frame whose first requested column is clean and whose second contains
a negative value raises the validation error but leaves the frame
mutated — the rows now carry 3 cells instead of the original 2, the
first derived column having been appended before the failing check. -/
theorem log_transform_mutation_counterexample :
    (log_transform_run (fun v : ℝ => Real.log (1 + v))
        [⟨"A", some "AAA", 2000, [some 1, some (-1)]⟩] [0, 1]).2.isSome = true ∧
    ((log_transform_run (fun v : ℝ => Real.log (1 + v))
        [⟨"A", some "AAA", 2000, [some 1, some (-1)]⟩] [0, 1]).1.map
      (fun r => r.cells.length)) = [3] := by
  have h0 : colHasNeg ([⟨"A", some "AAA", 2000, [some 1, some (-1)]⟩] : Frame ℝ) 0
      = false := by
    simp only [colHasNeg, cellNeg, List.any_cons, List.any_nil, List.getD_cons_zero,
      Bool.or_false]
    rw [decide_eq_false]
    norm_num
  have h1 : colHasNeg (addLogCol (fun v : ℝ => Real.log (1 + v))
      [⟨"A", some "AAA", 2000, [some 1, some (-1)]⟩] 0) 1 = true := by
    simp only [addLogCol, colHasNeg, cellNeg, List.map_cons, List.map_nil,
      List.any_cons, List.any_nil, Bool.or_false]
    norm_num
  have hrun : log_transform_run (fun v : ℝ => Real.log (1 + v))
      [⟨"A", some "AAA", 2000, [some 1, some (-1)]⟩] [0, 1] =
      (addLogCol (fun v : ℝ => Real.log (1 + v))
        [⟨"A", some "AAA", 2000, [some 1, some (-1)]⟩] 0,
       some "ValueError: column contains negative values, cannot apply log1p transform.") := by
    show (if colHasNeg _ 0 then _ else _) = _
    rw [h0]
    simp only [Bool.false_eq_true, if_false]
    show (if colHasNeg _ 1 then _ else _) = _
    rw [h1]
    simp
  rw [hrun]
  constructor
  · rfl
  · simp [addLogCol]

/-! The world aggregate of `pipeline.main`:
`world = df.groupby(['Year']).sum()` runs AFTER `log_transform` in the
pipe chain, so the summed frame already carries the derived log
columns. -/

/-- Insert into an ascending list of years. -/
def insertSortedInt (a : Int) : List Int → List Int
  | [] => [a]
  | y :: t => if a < y then a :: y :: t else y :: insertSortedInt a t

/-- Ascending insertion sort of years (`groupby` sorts its keys). -/
def sortInts (l : List Int) : List Int := l.foldr insertSortedInt []

/-- Column sum with pandas `sum` semantics: NaN cells are skipped and
an all-null column sums to 0. -/
def sumCells [Add α] [Zero α] (cs : List (Option α)) : α :=
  cs.foldr (fun c acc => match c with | some v => v + acc | none => acc) 0

/-- `df.groupby(['Year']).sum()` on the measurement columns: one row
per distinct year (ascending), each cell the per-year sum of the
non-null cells of its column. -/
def worldGroupSum [Add α] [Zero α] (df : Frame α) : List (Int × List α) :=
  (sortInts ((df.map (fun r => r.year)).dedup)).map (fun y =>
    (y, (List.range (frameWidth df)).map (fun j =>
      sumCells ((df.filter (fun r => r.year == y)).map
        (fun r => r.cells.getD j none)))))

theorem lookup_map_pairs (ys : List Int) (F : Int → List α) (y : Int) (cs : List α)
    (h : (ys.map (fun y2 => (y2, F y2))).lookup y = some cs) : cs = F y := by
  induction ys with
  | nil => simp [List.lookup] at h
  | cons a t ih =>
    simp only [List.map_cons, List.lookup] at h
    by_cases hya : y = a
    · subst hya
      simp only [beq_self_eq_true] at h
      exact (Option.some.injEq _ _ ▸ h).symm
    · rw [beq_eq_false_iff_ne.mpr hya] at h
      exact ih h

theorem frameWidth_of_rect (df : Frame α) (W : Nat)
    (hrect : ∀ r ∈ df, r.cells.length = W) (hne : df ≠ []) :
    frameWidth df = W := by
  induction df with
  | nil => simp at hne
  | cons r t ih =>
    have hr : r.cells.length = W := hrect r (by simp)
    show max r.cells.length (frameWidth t) = W
    cases t with
    | nil => simp [frameWidth, hr]
    | cons r2 t2 =>
      rw [ih (fun x hx => hrect x (List.mem_cons_of_mem _ hx)) (by simp), hr]
      exact Nat.max_self W

theorem getD_map_lt (l : List β) (f : β → γ) (n : Nat) (d : γ) (h : n < l.length) :
    (l.map f).getD n d = f (l.get ⟨n, h⟩) := by
  rw [List.getD_eq_getElem?_getD, List.getElem?_map, List.getElem?_eq_getElem h]
  rfl

/-- Claim C1 (amended): the world fit sums all numeric columns grouped
by Year and runs the same global-fit procedure on the aggregate, but
the grouping-and-summing happens AFTER `log_transform` has appended the
derived log columns, so each derived log column of the aggregate
carries, at every year, the per-year SUM across entities of the
per-row log values (sum of logs, nulls skipped) — not the log of the
per-year sum. -/
theorem world_aggregate_sums_logs [Add α] [Zero α] [LT α]
    [DecidableRel ((· < ·) : α → α → Prop)] (f : α → α)
    (df : Frame α) (w : Nat) (cols : List Nat)
    (hrect : ∀ r ∈ df, r.cells.length = w)
    (hcw : ∀ i ∈ cols, i < w)
    (hclean : ∀ i ∈ cols, colHasNeg df i = false) :
    log_transform_run f df cols = (withLogCols f cols df, none) ∧
    ∀ (k : Nat) (hk : k < cols.length) (y : Int) (cs : List α),
      (worldGroupSum (withLogCols f cols df)).lookup y = some cs →
      cs.getD (w + k) 0 =
        sumCells ((df.filter (fun r => r.year == y)).map
          (fun r => (r.cells.getD (cols.get ⟨k, hk⟩) none).map f)) := by
  refine ⟨log_transform_run_clean f cols df w hrect hcw hclean, ?_⟩
  intro k hk y cs hcs
  have hdfne : df ≠ [] := by
    intro hnil
    subst hnil
    simp [withLogCols, worldGroupSum, sortInts, List.lookup] at hcs
  have hrect2 : ∀ r ∈ withLogCols f cols df, r.cells.length = w + cols.length := by
    intro r hr
    obtain ⟨r0, hr0, rfl⟩ := List.mem_map.mp hr
    simp [hrect r0 hr0]
  have hne2 : withLogCols f cols df ≠ [] := by
    unfold withLogCols
    intro hnil
    exact hdfne (List.map_eq_nil_iff.mp hnil)
  have hW : frameWidth (withLogCols f cols df) = w + cols.length :=
    frameWidth_of_rect _ _ hrect2 hne2
  have hcseq := lookup_map_pairs _ _ _ _ hcs
  rw [hcseq, getD_map_range _ _ _ _ (by rw [hW]; omega)]
  have hfilter : (withLogCols f cols df).filter (fun r => r.year == y) =
      (df.filter (fun r => r.year == y)).map (fun r =>
        { r with cells := r.cells ++
            cols.map (fun i => (r.cells.getD i none).map f) }) := by
    unfold withLogCols
    rw [List.filter_map]
    rfl
  rw [hfilter, List.map_map]
  congr 1
  apply List.map_congr_left
  intro r hr
  have hlen : r.cells.length = w := hrect r (List.mem_of_mem_filter hr)
  simp only [Function.comp]
  rw [List.getD_append_right _ _ _ _ (by omega)]
  rw [show w + k - r.cells.length = k by omega]
  exact getD_map_lt cols _ k none hk

/-- Claim C1 counterexample: two entities with raw value 1 in year
2000. The aggregate's raw column carries 1 + 1 = 2, but its log-derived
column carries `log 2 + log 2 = log 4` — the sum of the per-entity log
values — which differs from `log(1 + 2) = log 3`, the log of the
per-year sum the claim asserts. -/
theorem world_aggregate_log_counterexample :
    ∃ df2, log_transform_run (fun v : ℝ => Real.log (1 + v))
        [⟨"A", some "AAA", 2000, [some 1]⟩, ⟨"B", some "BBB", 2000, [some 1]⟩] [0] =
      (df2, none) ∧
    ∃ cs, (worldGroupSum df2).lookup 2000 = some cs ∧
      cs.getD 0 0 = 2 ∧
      cs.getD 1 0 = Real.log 2 + Real.log 2 ∧
      cs.getD 1 0 ≠ Real.log (1 + 2) := by
  have hdec : decide ((1 : ℝ) < 0) = false := decide_eq_false (by norm_num)
  have hrun := log_transform_run_clean (fun v : ℝ => Real.log (1 + v)) [0]
    [⟨"A", some "AAA", 2000, [some 1]⟩, ⟨"B", some "BBB", 2000, [some 1]⟩] 1
    (by
      intro r hr
      simp only [List.mem_cons, List.mem_singleton] at hr
      rcases hr with rfl | rfl | h
      · rfl
      · rfl
      · simp at h)
    (by intro i hi; simp only [List.mem_singleton] at hi; omega)
    (by
      intro i hi
      simp only [List.mem_singleton] at hi
      subst hi
      simp [colHasNeg, cellNeg, hdec])
  refine ⟨_, hrun, ?_⟩
  have hdf2 : withLogCols (fun v : ℝ => Real.log (1 + v)) [0]
      [⟨"A", some "AAA", 2000, [some 1]⟩, ⟨"B", some "BBB", 2000, [some 1]⟩] =
      [⟨"A", some "AAA", 2000, [some 1, some (Real.log (1 + 1))]⟩,
       ⟨"B", some "BBB", 2000, [some 1, some (Real.log (1 + 1))]⟩] := by
    simp [withLogCols]
  rw [hdf2]
  have hws : worldGroupSum
      [⟨"A", some "AAA", 2000, [some 1, some (Real.log (1 + 1))]⟩,
       (⟨"B", some "BBB", 2000, [some 1, some (Real.log (1 + 1))]⟩ : Row ℝ)] =
      [(2000, [(1 : ℝ) + 1, Real.log (1 + 1) + Real.log (1 + 1)])] := by
    have hrange : List.range 2 = [0, 1] := rfl
    simp [worldGroupSum, sortInts, insertSortedInt, frameWidth, sumCells, hrange]
  rw [hws]
  refine ⟨[(1 : ℝ) + 1, Real.log (1 + 1) + Real.log (1 + 1)], by simp [List.lookup], ?_, ?_, ?_⟩
  · norm_num
  · norm_num
  · have h4 : Real.log 2 + Real.log 2 = Real.log 4 := by
      rw [show (4 : ℝ) = 2 * 2 by norm_num, Real.log_mul (by norm_num) (by norm_num)]
    have h34 : Real.log 3 < Real.log 4 := Real.log_lt_log (by norm_num) (by norm_num)
    norm_num [h4]
    intro hcontra
    rw [hcontra] at h34
    exact lt_irrefl _ h34

/-- Witness for C1 (amended) over ℚ with the identity in place of the
(transcendental) log map: the run succeeds and the aggregate's derived
column at year 2000 is the sum of the per-row derived values. -/
theorem world_aggregate_sums_logs_witness :
    log_transform_run (fun q : ℚ => q)
        [⟨"A", some "AAA", 2000, [some 1]⟩, ⟨"B", some "BBB", 2000, [some 1]⟩] [0] =
      (withLogCols (fun q : ℚ => q) [0]
        [⟨"A", some "AAA", 2000, [some 1]⟩, ⟨"B", some "BBB", 2000, [some 1]⟩], none) ∧
    ∃ cs, (worldGroupSum (withLogCols (fun q : ℚ => q) [0]
        [⟨"A", some "AAA", 2000, [some 1]⟩, ⟨"B", some "BBB", 2000, [some 1]⟩])).lookup
          2000 = some cs ∧
      cs.getD 1 0 = sumCells
        (([⟨"A", some "AAA", 2000, [some 1]⟩,
           (⟨"B", some "BBB", 2000, [some 1]⟩ : Row ℚ)].filter
            (fun r => r.year == 2000)).map
          (fun r => (r.cells.getD 0 none).map (fun q : ℚ => q))) := by
  have h := world_aggregate_sums_logs (fun q : ℚ => q)
    [⟨"A", some "AAA", 2000, [some 1]⟩, ⟨"B", some "BBB", 2000, [some 1]⟩] 1 [0]
    (by decide) (by decide) (by decide)
  refine ⟨h.1, ?_⟩
  have hdf2 : withLogCols (fun q : ℚ => q) [0]
      [⟨"A", some "AAA", 2000, [some 1]⟩, ⟨"B", some "BBB", 2000, [some 1]⟩] =
      [⟨"A", some "AAA", 2000, [some 1, some 1]⟩,
       ⟨"B", some "BBB", 2000, [some 1, some 1]⟩] := by
    simp [withLogCols]
  have hws : worldGroupSum (withLogCols (fun q : ℚ => q) [0]
      [⟨"A", some "AAA", 2000, [some 1]⟩, ⟨"B", some "BBB", 2000, [some 1]⟩]) =
      [(2000, [(1 : ℚ) + 1, (1 : ℚ) + 1])] := by
    rw [hdf2]
    have hrange : List.range 2 = [0, 1] := rfl
    simp [worldGroupSum, sortInts, insertSortedInt, frameWidth, sumCells, hrange]
  have hlookup : (worldGroupSum (withLogCols (fun q : ℚ => q) [0]
      [⟨"A", some "AAA", 2000, [some 1]⟩,
       ⟨"B", some "BBB", 2000, [some 1]⟩])).lookup 2000 =
      some [(1 : ℚ) + 1, (1 : ℚ) + 1] := by
    rw [hws]
    simp [List.lookup]
  exact ⟨[(1 : ℚ) + 1, (1 : ℚ) + 1], hlookup,
    h.2 0 (by norm_num) 2000 [(1 : ℚ) + 1, (1 : ℚ) + 1] hlookup⟩

end ScalingAnalysis
